import Mathlib

/-!
Verification development for the crabbit merge/reshape engine
(`crabbit/cli.py` download pipeline and the `crabbit.utils` mergers).

JSON payloads manipulated by the pipeline are modelled shallowly: every
value occurring in the reshaper's data is either an atomic JSON value
(null, number, string) or a flat array of atoms, and JSON objects are
modelled as insertion-ordered association lists, mirroring Python dicts.
-/

/-- Atomic JSON value (null, number, string). -/
inductive JAtom where
  | jnull
  | jnum (n : Int)
  | jstr (s : String)
deriving DecidableEq, Repr

/-- JSON value as used by the scalar-result pipeline: an atom or a flat
array of atoms. -/
inductive JVal where
  | atom (a : JAtom)
  | arr (l : List JAtom)
deriving DecidableEq, Repr

/-- A Python dict with string keys, modelled as an insertion-ordered
association list. -/
abbrev Dict := List (String × JVal)

/-- Dict lookup (`d[k]` / `k in d`): value of the first entry with key `k`. -/
def aget {κ β : Type} [DecidableEq κ] : List (κ × β) → κ → Option β
  | [], _ => none
  | (k', v) :: rest, k => if k' = k then some v else aget rest k

/-- Dict assignment (`d[k] = v`): replaces the value of an existing key in
place (Python dicts keep key position on assignment), otherwise appends the
new entry at the end. -/
def aset {κ β : Type} [DecidableEq κ] : List (κ × β) → κ → β → List (κ × β)
  | [], k, v => [(k, v)]
  | (k', v') :: rest, k, v =>
    if k' = k then (k', v) :: rest else (k', v') :: aset rest k v

/-- Dict deletion (`del d[k]`): removes the entry with key `k`. -/
def adel {κ β : Type} [DecidableEq κ] (d : List (κ × β)) (k : κ) : List (κ × β) :=
  d.filter (fun p => p.1 ≠ k)

/-- Python dict union `a | b`: keys of `a` in their order (values from `b`
when the key is also in `b`), then the keys of `b` not present in `a`. -/
def dmerge {κ β : Type} [DecidableEq κ] (a b : List (κ × β)) : List (κ × β) :=
  a.map (fun p => (p.1, (aget b p.1).getD p.2)) ++
    b.filter (fun p => (aget a p.1).isNone)

/-- `s.add(x)` on a Python set modelled by its insertion-ordered distinct
elements: append the element unless already present. -/
def addToSet {α : Type} [DecidableEq α] (l : List α) (a : α) : List α :=
  if a ∈ l then l else l ++ [a]

/-- `set.add` applied to a set stored as a `JVal.arr` of its
insertion-ordered distinct elements; non-array values are left unchanged
(the pipeline only ever applies this to the arrays it created itself). -/
def setAdd (v : JVal) (x : JAtom) : JVal :=
  match v with
  | .arr l => .arr (if x ∈ l then l else l ++ [x])
  | .atom a => .atom a

/-! ## The scalar-result reshaper (`cli.py`, lines 291-300) -/

/-- The two result kinds walked by the `zip` loop of
`download_calib_patient_scalar_results`. -/
inductive ScalarKind where
  | scalar
  | categorical
deriving DecidableEq, Repr

/-- The `multi_field` name of each kind (`"scalarValues"` /
`"categoricalLevels"`). -/
def multiField : ScalarKind → String
  | .scalar => "scalarValues"
  | .categorical => "categoricalLevels"

/-- The length-1 array `[x]` wrapping a singular field's value.  A
record's `value`/`error` is a single atomic outcome (spec data model), so
only the `.atom` branch is reachable on source data; the `.arr` branch
merely keeps the function total. -/
def wrapVal : JVal → JVal
  | .atom a => .arr [a]
  | .arr l => .arr l

/-- The array field a reshaped record ends up with for a given singular
field: `[x]` when the field held `x`, `[]` when the field was absent. -/
def valArray : Option JVal → JVal
  | none => .arr []
  | some v => wrapVal v

/-- Lines 291-300 of `cli.py`: turn one single-patient scalar record into
multi-patient format.  `one_scalar[multi_field] = []`,
`one_scalar["errors"] = []`, then move `"value"` into a length-1 array at
`multi_field` and `"error"` into a length-1 `"errors"` array, deleting the
singular keys. -/
def reshapeRecord (mf : String) (r : Dict) : Dict :=
  let r1 := aset r mf (.arr [])
  let r2 := aset r1 "errors" (.arr [])
  let r3 := match aget r2 "value" with
    | some v => adel (aset r2 mf (wrapVal v)) "value"
    | none => r2
  match aget r3 "error" with
  | some e => adel (aset r3 "errors" (wrapVal e)) "error"
  | none => r3

/-! ## The metadata aggregator (`cli.py`, lines 255-289) -/

/-- Job-fatal failures of the scalar-result download: a patient-number
mismatch (the `assert` of lines 260-262, an uncaught `AssertionError`) or a
missing mandatory key (`KeyError`/`TypeError`, caught at line 306). -/
inductive RunError where
  | patientMismatch
  | keyError
deriving DecidableEq, Repr

/-- The pair of in-progress metadata dicts of one result kind: the
scalar-id-indexed `metadata_dict` and `cross_metadata_dict` (a scalar id is
whatever value `one_scalar["id"]` holds). -/
abbrev MdPair := List (JVal × Dict) × List (JVal × Dict)

/-- After `metadata_dict[scalar_id]` exists:
`metadata_dict[scalar_id]["arms"].add(arm_name)` (line 289).  Entries
created by this pipeline always carry an `"arms"` array. -/
def armsAdd (e : Dict) (armName : String) : Dict :=
  aset e "arms" (setAdd ((aget e "arms").getD (.arr [])) (.jstr armName))

/-- Lines 265-289 of `cli.py`: observe one scalar record under one arm.
Fetches `one_scalar["id"]` (a `KeyError` aborts the job), creates the
missing metadata entry — in `cross_metadata_dict` without an `"arms"`
field when the arm is the reserved `"crossArms"` pseudo-arm, in
`metadata_dict` with an `"arms"` set otherwise — and adds the arm to the
entry's `"arms"` set for non-cross observations.  `one_scalar["type"]` is
only read (and can only raise) when the entry is created. -/
def observeScalar (hasUnit : Bool) (armName : String) (st : MdPair) (r : Dict) :
    Except RunError MdPair :=
  match aget r "id" with
  | none => .error .keyError
  | some scalarId =>
    let scalarUnit : JVal := (aget r "unit").getD (.atom .jnull)
    if armName = "crossArms" then
      match aget st.2 scalarId with
      | some _ => .ok st
      | none =>
        match aget r "type" with
        | none => .error .keyError
        | some ty =>
          let e : Dict :=
            [("description", .atom .jnull), ("id", scalarId), ("type", ty)] ++
              (if hasUnit then [("unit", scalarUnit)] else [])
          .ok (st.1, st.2 ++ [(scalarId, e)])
    else
      match aget st.1 scalarId with
      | some e => .ok (aset st.1 scalarId (armsAdd e armName), st.2)
      | none =>
        match aget r "type" with
        | none => .error .keyError
        | some ty =>
          let e : Dict :=
            [("arms", .arr []), ("description", .atom .jnull),
             ("id", scalarId), ("type", ty)] ++
              (if hasUnit then [("unit", scalarUnit)] else [])
          .ok (st.1 ++ [(scalarId, armsAdd e armName)], st.2)

/-- A sequence of observations (arm name and record) fed to the metadata
aggregator, starting from a given pair of metadata dicts. -/
def foldObserve (hasUnit : Bool) : List (String × Dict) → MdPair → Except RunError MdPair
  | [], st => .ok st
  | (armName, r) :: rest, st =>
    match observeScalar hasUnit armName st r with
    | .error e => .error e
    | .ok st' => foldObserve hasUnit rest st'

/-- Structural invariant of the two metadata dicts: every non-cross entry
carries an `"arms"` array without duplicates, and every cross entry
carries no `"arms"` key at all. -/
def ArmsInv (st : MdPair) : Prop :=
  (∀ p ∈ st.1, ∃ l, aget p.2 "arms" = some (JVal.arr l) ∧ l.Nodup) ∧
  (∀ p ∈ st.2, aget p.2 "arms" = none)

/-- The non-cross metadata dict records arm `a` for scalar id `sid`. -/
def HasArm (st : MdPair) (sid : JVal) (a : String) : Prop :=
  ∃ e l, aget st.1 sid = some e ∧ aget e "arms" = some (JVal.arr l) ∧ JAtom.jstr a ∈ l

/-- The cross metadata dict has an entry for scalar id `sid`. -/
def HasCross (st : MdPair) (sid : JVal) : Prop :=
  ∃ e, aget st.2 sid = some e

/-! ## One arm's record loop and the per-arm file writes
(`cli.py`, lines 255-304) -/

/-- One `json.dump` call: the directory (`ScalarArrays`/`CategoricalArrays`),
the file name (`f"{arm_name}.json"`), and the dumped array of records. -/
structure WrittenFile where
  dir : String
  fileName : String
  content : List Dict
deriving DecidableEq, Repr

/-- One entry of `response[response_subtype]`: the arm name
(`group[0].contents`), the `indexes.patientNumber` (`none` models the key
being absent, which raises `KeyError`), and the record list `res`. -/
structure ArmItem where
  armName : String
  patientNumber : Option Nat
  res : List Dict
deriving DecidableEq, Repr

/-- The request's response: `{"outputs": [...], "outputsCategorical": [...]}`. -/
structure ScalarResponse where
  outputs : List ArmItem
  outputsCategorical : List ArmItem
deriving DecidableEq, Repr

/-- Lines 264-300: one arm's inner loop, observing each record into the
metadata dicts and reshaping it into the arm's `scalar_array`. -/
def processRes (hasUnit : Bool) (armName mf : String) :
    List Dict → MdPair → List Dict → Except RunError (MdPair × List Dict)
  | [], st, arr => .ok (st, arr)
  | r :: rest, st, arr =>
    match observeScalar hasUnit armName st r with
    | .error e => .error e
    | .ok st' => processRes hasUnit armName mf rest st' (arr ++ [reshapeRecord mf r])

/-- State threaded through the arm loop: the `arms` set (insertion-ordered
distinct elements), the two metadata dicts of the current kind, and the
files written so far. -/
structure SubState where
  arms : List String
  mdp : MdPair
  files : List WrittenFile
deriving DecidableEq, Repr

/-- Lines 255-304: the loop over one subtype's arm items.  The arm name is
added to the `arms` set before the patient-number assertion; a missing
`indexes.patientNumber` raises `KeyError` and a mismatching one raises
`AssertionError`, each aborting the loop after the files already dumped. -/
def runArms (pid : Nat) (hasUnit : Bool) (dir mf : String) :
    List ArmItem → SubState → SubState × Option RunError
  | [], st => (st, none)
  | ai :: rest, st =>
    let isCross := ai.armName = "crossArms"
    let st1 : SubState :=
      { st with arms := if isCross then st.arms else addToSet st.arms ai.armName }
    match ai.patientNumber with
    | none => (st1, some .keyError)
    | some pn =>
      if pn = pid then
        match processRes hasUnit ai.armName mf ai.res st1.mdp [] with
        | .error e => (st1, some e)
        | .ok (mdp', arr) =>
          runArms pid hasUnit dir mf rest
            { arms := st1.arms, mdp := mdp',
              files := st1.files ++ [⟨dir, ai.armName ++ ".json", arr⟩] }
      else (st1, some .patientMismatch)

/-! ## Metadata finalization (`cli.py`, lines 310-324) -/

/-- The content of `ScalarMetaData.json`. -/
structure MetadataJson where
  arms : List JVal
  patients : List String
  scalars : List Dict
  categoricals : List Dict
  scalarsCrossArm : List Dict
  categoricalsCrossArm : List Dict
deriving DecidableEq, Repr

/-- Lines 318-323: flatten one scalar-id-indexed entry.  `list(...)` on the
`"arms"` set is modelled by the enumeration oracle `ord` (Python fixes no
particular iteration order for a set of strings); the `{"id": scalar_id}`
union re-interleaves the id. -/
def flattenEntry (ord : List JAtom → List JAtom) (p : JVal × Dict) : Dict :=
  let e := match aget p.2 "arms" with
    | some (.arr l) => aset p.2 "arms" (.arr (ord l))
    | _ => p.2
  dmerge [("id", p.1)] e

/-- Lines 310-324: build the `ScalarMetaData.json` payload.  `ord` is the
set-enumeration oracle used for every `list(set)` conversion. -/
def finalizeMetadata (ord : List JAtom → List JAtom) (arms : List String)
    (scalars categoricals scalarsCross categoricalsCross : List (JVal × Dict)) :
    MetadataJson :=
  { arms := (ord (arms.map .jstr)).map .atom
    patients := ["CalibratedPatient"]
    scalars := scalars.map (flattenEntry ord)
    categoricals := categoricals.map (flattenEntry ord)
    scalarsCrossArm := scalarsCross.map (flattenEntry ord)
    categoricalsCrossArm := categoricalsCross.map (flattenEntry ord) }

/-- What the function leaves on disk and whether it completed: the per-arm
array files dumped before any failure, and either the metadata payload or
the error that aborted the job (on abort, `ScalarMetaData.json` is never
reached). -/
structure RunOutcome where
  files : List WrittenFile
  metadata : Except RunError MetadataJson

/-- `download_calib_patient_scalar_results` (`cli.py`, lines 217-330),
from the decoded response on: walk `outputs` with `has_unit = True` into
`ScalarArrays`, then `outputsCategorical` with `has_unit = False` into
`CategoricalArrays`, sharing the `arms` set and accumulating the written
files; on success dump the finalized metadata. -/
def download_calib_patient_scalar_results (pid : Nat)
    (ord : List JAtom → List JAtom) (resp : ScalarResponse) : RunOutcome :=
  let r1 := runArms pid true "ScalarArrays" "scalarValues" resp.outputs
    ⟨[], ([], []), []⟩
  match r1.2 with
  | some e => ⟨r1.1.files, .error e⟩
  | none =>
    let r2 := runArms pid false "CategoricalArrays" "categoricalLevels"
      resp.outputsCategorical ⟨r1.1.arms, ([], []), r1.1.files⟩
    match r2.2 with
    | some e => ⟨r2.1.files, .error e⟩
    | none =>
      ⟨r2.1.files,
       .ok (finalizeMetadata ord r2.1.arms r1.1.mdp.1 r2.1.mdp.1 r1.1.mdp.2 r2.1.mdp.2)⟩

/-! ## The three structural mergers (`crabbit.utils`)

The module `crabbit/utils.py` is not part of the available sources (only
its tests and callers are), so the mergers below are modelled from the
spec, sections 4.1-4.3. -/

/-- Modelled from the spec: the conflict-or-merged result of
`crabbit.utils.merge_vpops` / `merge_vpop_designs` (`None` on conflict). -/
abbrev MergeResult (α : Type) := Option α

/-- Modelled from the spec: the shared accumulation loop of the key-indexed
mergers (spec 4.1, 4.2): iterate entries in input order; a fresh identity
key is appended (first occurrence fixes position), a colliding key whose
content is value-level identical is dropped, and any colliding key with
differing content aborts the whole merge with a conflict. -/
def mergeByKey {α κ : Type} [DecidableEq α] [DecidableEq κ] (key : α → κ) :
    List α → List α → MergeResult (List α)
  | acc, [] => some acc
  | acc, x :: rest =>
    match acc.find? (fun y => decide (key y = key x)) with
    | some y => if y = x then mergeByKey key acc rest else none
    | none => mergeByKey key (acc ++ [x]) rest

/-- First-seen-order deduplication by identity key: the output the
key-indexed mergers produce when no conflict occurs. -/
def dedupByKey {α κ : Type} [DecidableEq κ] (key : α → κ) :
    List α → List α → List α
  | acc, [] => acc
  | acc, x :: rest =>
    if (acc.find? (fun y => decide (key y = key x))).isSome then
      dedupByKey key acc rest
    else dedupByKey key (acc ++ [x]) rest

/-- Modelled from the spec: a virtual-population patient,
`{patientId, parameterValues}` (spec data model, section 3). -/
structure Patient where
  patientId : String
  parameterValues : List (String × JVal)
deriving DecidableEq, Repr

/-- Modelled from the spec: `crabbit.utils.merge_vpops` (spec 4.1) —
merge the patient sequences keyed by `patientId`; first-seen copy wins,
identical duplicates are dropped, differing `parameterValues` under one
`patientId` is a conflict (`none`). -/
def merge_vpops (vpops : List (List Patient)) : MergeResult (List Patient) :=
  mergeByKey Patient.patientId [] vpops.flatten

/-- Modelled from the spec: `crabbit.utils.merge_vpop_designs` (spec 4.2) —
merge the dimension mappings keyed by dimension identifier; colliding keys
require deep-equal payloads, otherwise the whole merge conflicts. -/
def merge_vpop_designs (designs : List (List (String × JVal))) :
    MergeResult (List (String × JVal)) :=
  mergeByKey Prod.fst [] designs.flatten

/-- Modelled from the spec: one CSV data table — source file name, header
(named column set) and data rows (spec data model, section 3). -/
structure CsvTable where
  name : String
  columns : List String
  rows : List (List String)
deriving DecidableEq, Repr

/-- Modelled from the spec: the outcome of the CSV merger — one merged
table, or a conflict (the caller then keeps the tables separate). -/
inductive MergeOutcome where
  | single (t : CsvTable)
  | conflict
deriving DecidableEq, Repr

/-- The fixed mandatory column list of the column-trimming fallback
(spec 4.3 / `cli.py` lines 148-157). -/
def mandatory_columns : List String :=
  ["armScope", "obsId", "time", "value",
   "narrowRangeLowBound", "narrowRangeHighBound",
   "wideRangeLowBound", "wideRangeHighBound"]

/-- Characters before the first occurrence of the marker character list:
`name.split(".csv")[0]` on the underlying character list. -/
def beforeMarker (pat : List Char) : List Char → List Char
  | [] => []
  | c :: rest => if pat.isPrefixOf (c :: rest) then [] else c :: beforeMarker pat rest

/-- Provenance identifier derived from a source table name:
`csv_name.split(".csv")[0]` (`cli.py` line 159). -/
def dataTableId (name : String) : String :=
  ⟨beforeMarker ".csv".toList name.toList⟩

/-- Cell of a row under a named column, by the column's header position. -/
def cellAt (cols : List String) (row : List String) (c : String) : String :=
  (row.get? (cols.indexOf c)).getD ""

/-- The column-trimming fallback applied to one table: project the rows
onto exactly the mandatory columns and tag each row with the `dataTableID`
provenance column (`cli.py` lines 158-162). -/
def trimTable (t : CsvTable) : CsvTable :=
  ⟨t.name, mandatory_columns ++ ["dataTableID"],
   t.rows.map (fun row =>
     mandatory_columns.map (cellAt t.columns row) ++ [dataTableId t.name])⟩

/-- Modelled from the spec: `crabbit.utils.merge_csv` (spec 4.3) — direct
row concatenation when every table shares the first table's column set;
otherwise the column-trimming fallback when every table carries all
mandatory columns; otherwise a conflict. -/
def merge_csv : List CsvTable → MergeOutcome
  | [] => .conflict
  | t :: rest =>
    if (t :: rest).all (fun u => decide (u.columns = t.columns)) then
      .single ⟨t.name, t.columns, ((t :: rest).map CsvTable.rows).flatten⟩
    else if (t :: rest).all (fun u => mandatory_columns.all (fun c => u.columns.contains c)) then
      .single ⟨t.name, mandatory_columns ++ ["dataTableID"],
               ((t :: rest).map (fun u => (trimTable u).rows)).flatten⟩
    else .conflict

/-- Key-coherence of a list of entries: any two entries sharing an
identity key are the same entry.  This is exactly the condition under
which a key-indexed merge has no conflict. -/
def KCoherent {α κ : Type} (key : α → κ) (l : List α) : Prop :=
  ∀ x ∈ l, ∀ y ∈ l, key x = key y → x = y

/-! ## Lemmas about the dict operations -/

theorem aget_aset_self {κ β : Type} [DecidableEq κ] (d : List (κ × β)) (k : κ) (v : β) :
    aget (aset d k v) k = some v := by
  induction d with
  | nil => simp [aget, aset]
  | cons p rest ih =>
    obtain ⟨a, b⟩ := p
    by_cases h : a = k
    · simp [aget, aset, h]
    · simp [aget, aset, h, ih]

theorem aget_aset_ne {κ β : Type} [DecidableEq κ] (d : List (κ × β)) (k : κ) (v : β)
    (k' : κ) (h : k' ≠ k) : aget (aset d k v) k' = aget d k' := by
  induction d with
  | nil => simp [aget, aset, Ne.symm h]
  | cons p rest ih =>
    obtain ⟨a, b⟩ := p
    by_cases hp : a = k
    · subst hp
      simp [aget, aset, Ne.symm h]
    · simp [aget, aset, hp, ih]

theorem aget_adel_self {κ β : Type} [DecidableEq κ] (d : List (κ × β)) (k : κ) :
    aget (adel d k) k = none := by
  induction d with
  | nil => simp [adel, aget]
  | cons p rest ih =>
    obtain ⟨a, b⟩ := p
    simp only [adel, ne_eq, decide_not] at ih ⊢
    by_cases h : a = k
    · simpa [List.filter_cons, h] using ih
    · simp [List.filter_cons, h, aget, ih]

theorem aget_adel_ne {κ β : Type} [DecidableEq κ] (d : List (κ × β)) (k k' : κ)
    (h : k' ≠ k) : aget (adel d k) k' = aget d k' := by
  induction d with
  | nil => simp [adel]
  | cons p rest ih =>
    obtain ⟨a, b⟩ := p
    simp only [adel, ne_eq, decide_not] at ih ⊢
    by_cases hak : a = k
    · subst hak
      simp [List.filter_cons, aget, Ne.symm h, ih]
    · simp [List.filter_cons, hak, aget, ih]

theorem aget_append {κ β : Type} [DecidableEq κ] (d d' : List (κ × β)) (k : κ) :
    aget (d ++ d') k = ((aget d k).orElse (fun _ => aget d' k)) := by
  induction d with
  | nil => simp [aget]
  | cons p rest ih =>
    obtain ⟨a, b⟩ := p
    by_cases h : a = k
    · simp [aget, h]
    · simp [aget, h, ih]

theorem aget_mem {κ β : Type} [DecidableEq κ] (d : List (κ × β)) (k : κ) (v : β)
    (h : aget d k = some v) : (k, v) ∈ d := by
  induction d with
  | nil => simp [aget] at h
  | cons p rest ih =>
    obtain ⟨a, b⟩ := p
    by_cases hak : a = k
    · subst hak
      simp [aget] at h
      subst h
      exact List.mem_cons_self _ _
    · simp [aget, hak] at h
      exact List.mem_cons_of_mem _ (ih h)

theorem mem_aset {κ β : Type} [DecidableEq κ] (d : List (κ × β)) (k : κ) (v : β)
    (p : κ × β) (h : p ∈ aset d k v) : p = (k, v) ∨ p ∈ d := by
  induction d with
  | nil => simpa [aset] using h
  | cons q rest ih =>
    obtain ⟨a, b⟩ := q
    by_cases ha : a = k
    · subst ha
      simp [aset] at h
      rcases h with h | h
      · exact Or.inl (by simp [h])
      · exact Or.inr (List.mem_cons_of_mem _ h)
    · simp [aset, ha] at h
      rcases h with h | h
      · exact Or.inr (by simp [h])
      · rcases ih h with h' | h'
        · exact Or.inl h'
        · exact Or.inr (List.mem_cons_of_mem _ h')

/-! ## The reshaper's field conversion (claims C1, C10) -/

theorem multiField_ne (k : ScalarKind) :
    multiField k ≠ "value" ∧ multiField k ≠ "error" ∧ multiField k ≠ "errors" := by
  cases k <;> refine ⟨by decide, by decide, by decide⟩

theorem reshape_spec (mf : String) (r : Dict)
    (h1 : mf ≠ "value") (h2 : mf ≠ "error") (h3 : mf ≠ "errors") :
    aget (reshapeRecord mf r) mf = some (valArray (aget r "value")) ∧
    aget (reshapeRecord mf r) "errors" = some (valArray (aget r "error")) ∧
    aget (reshapeRecord mf r) "value" = none ∧
    aget (reshapeRecord mf r) "error" = none := by
  rcases hv : aget r "value" with _ | v <;> rcases he : aget r "error" with _ | e <;>
    simp [reshapeRecord, valArray, aget_aset_ne, aget_aset_self, aget_adel_ne,
      aget_adel_self, hv, he, h1, h2, h3, Ne.symm h1, Ne.symm h2, Ne.symm h3]

/-- C1: a scalar/categorical record carrying a `value` field (and no
`error`) reshapes to a record whose length-1 array field (`scalarValues`
for the scalar kind, `categoricalLevels` for the categorical kind) is
`[value]` with `errors = []`; a record carrying an `error` field instead
reshapes to an empty array field with `errors = [error]`. -/
theorem c1_reshaper_singular_to_array (k : ScalarKind) (r : Dict) :
    (∀ v : JAtom, aget r "value" = some (.atom v) → aget r "error" = none →
      aget (reshapeRecord (multiField k) r) (multiField k) = some (.arr [v]) ∧
      aget (reshapeRecord (multiField k) r) "errors" = some (.arr [])) ∧
    (∀ e : JAtom, aget r "error" = some (.atom e) → aget r "value" = none →
      aget (reshapeRecord (multiField k) r) (multiField k) = some (.arr []) ∧
      aget (reshapeRecord (multiField k) r) "errors" = some (.arr [e])) := by
  obtain ⟨hm1, hm2, hm3⟩ := multiField_ne k
  obtain ⟨s1, s2, s3, s4⟩ := reshape_spec (multiField k) r hm1 hm2 hm3
  constructor
  · intro v hv he
    constructor
    · rw [s1, hv]
      rfl
    · rw [s2, he]
      rfl
  · intro e he hv
    constructor
    · rw [s1, hv]
      rfl
    · rw [s2, he]
      rfl

theorem c1_reshaper_singular_to_array_witness :
    aget (reshapeRecord (multiField .scalar)
        [("id", JVal.atom (.jstr "s1")), ("value", JVal.atom (.jnum 48))])
      (multiField .scalar) = some (.arr [.jnum 48]) ∧
    aget (reshapeRecord (multiField .scalar)
        [("id", JVal.atom (.jstr "s1")), ("value", JVal.atom (.jnum 48))])
      "errors" = some (.arr []) :=
  (c1_reshaper_singular_to_array .scalar _).1 (.jnum 48) (by decide) (by decide)

/-- C10: the reshaper converts the `value` and `error` fields independently
and totally — a record carrying both yields a length-1 array field and a
length-1 `errors` array, a record carrying neither yields two empty arrays,
and in every reshaped record the singular `value` and `error` keys are
absent. -/
theorem c10_reshaper_total_independent (k : ScalarKind) (r : Dict) :
    (∀ v e : JAtom, aget r "value" = some (.atom v) → aget r "error" = some (.atom e) →
      aget (reshapeRecord (multiField k) r) (multiField k) = some (.arr [v]) ∧
      aget (reshapeRecord (multiField k) r) "errors" = some (.arr [e])) ∧
    (aget r "value" = none → aget r "error" = none →
      aget (reshapeRecord (multiField k) r) (multiField k) = some (.arr []) ∧
      aget (reshapeRecord (multiField k) r) "errors" = some (.arr [])) ∧
    aget (reshapeRecord (multiField k) r) "value" = none ∧
    aget (reshapeRecord (multiField k) r) "error" = none := by
  obtain ⟨hm1, hm2, hm3⟩ := multiField_ne k
  obtain ⟨s1, s2, s3, s4⟩ := reshape_spec (multiField k) r hm1 hm2 hm3
  refine ⟨fun v e hv he => ⟨?_, ?_⟩, fun hv he => ⟨?_, ?_⟩, s3, s4⟩
  · rw [s1, hv]
    rfl
  · rw [s2, he]
    rfl
  · rw [s1, hv]
    rfl
  · rw [s2, he]
    rfl

theorem c10_reshaper_total_independent_witness :
    (aget (reshapeRecord (multiField .scalar)
        [("value", JVal.atom (.jnum 7)), ("error", JVal.atom (.jstr "e"))])
      (multiField .scalar) = some (.arr [.jnum 7]) ∧
     aget (reshapeRecord (multiField .scalar)
        [("value", JVal.atom (.jnum 7)), ("error", JVal.atom (.jstr "e"))])
      "errors" = some (.arr [.jstr "e"])) ∧
    (aget (reshapeRecord (multiField .categorical) [("id", JVal.atom (.jstr "s"))])
      (multiField .categorical) = some (.arr []) ∧
     aget (reshapeRecord (multiField .categorical) [("id", JVal.atom (.jstr "s"))])
      "errors" = some (.arr [])) ∧
    aget (reshapeRecord (multiField .scalar)
        [("value", JVal.atom (.jnum 7)), ("error", JVal.atom (.jstr "e"))])
      "value" = none :=
  ⟨(c10_reshaper_total_independent .scalar _).1 (.jnum 7) (.jstr "e") (by decide) (by decide),
   (c10_reshaper_total_independent .categorical _).2.1 (by decide) (by decide),
   (c10_reshaper_total_independent .scalar _).2.2.1⟩

/-! ## Abort behaviour of the reshape job (claim C2) -/

theorem runArms_append (pid : Nat) (h : Bool) (dir mf : String) (l1 l2 : List ArmItem)
    (st : SubState) :
    runArms pid h dir mf (l1 ++ l2) st =
      (match runArms pid h dir mf l1 st with
       | (st', none) => runArms pid h dir mf l2 st'
       | (st', some e) => (st', some e)) := by
  induction l1 generalizing st with
  | nil => simp [runArms]
  | cons ai rest ih =>
    simp only [List.cons_append, runArms]
    rcases hpn : ai.patientNumber with _ | pn
    · simp
    · by_cases hp : pn = pid
      · simp only [hp, if_pos rfl]
        rcases hres : processRes h ai.armName mf ai.res _ [] with e | ok
        · simp
        · obtain ⟨mdp', arr⟩ := ok
          simp [ih]
      · simp [hp]

/-- C2 counterexample: a result set whose second arm item carries a
mismatching `patientNumber` aborts the reshape (no metadata), yet the
per-arm array file of the first arm has already been written — partial
output exists, contradicting the claim that no per-arm array file is
written for that patient. -/
theorem c2_abort_counterexample :
    (download_calib_patient_scalar_results 1 id
      ⟨[⟨"armA", some 1, [[("id", JVal.atom (.jstr "s1")),
          ("type", JVal.atom (.jstr "Numeric")), ("value", JVal.atom (.jnum 48))]]⟩,
        ⟨"armB", some 2, []⟩], []⟩).metadata.toOption = none ∧
    (download_calib_patient_scalar_results 1 id
      ⟨[⟨"armA", some 1, [[("id", JVal.atom (.jstr "s1")),
          ("type", JVal.atom (.jstr "Numeric")), ("value", JVal.atom (.jnum 48))]]⟩,
        ⟨"armB", some 2, []⟩], []⟩).files =
      [⟨"ScalarArrays", "armA.json",
        [[("id", JVal.atom (.jstr "s1")), ("type", JVal.atom (.jstr "Numeric")),
          ("scalarValues", JVal.arr [.jnum 48]), ("errors", JVal.arr [])]]⟩] := by
  decide

/-- C2 (amended): a record with a missing `indexes.patientNumber` or a
`patientNumber` different from the requested patient — whether it sits in
`outputs` or in `outputsCategorical` — aborts the whole reshape: the
metadata file is never written and no later arm is processed; but the
per-arm array files dumped for the arms processed before the violating arm
item (including all scalar-array files when the violation is in the
categorical pass) remain written. -/
theorem c2_abort_no_metadata (pid : Nat) (ord : List JAtom → List JAtom)
    (pre rest other : List ArmItem) (ai : ArmItem)
    (hb : ai.patientNumber ≠ some pid) :
    ((download_calib_patient_scalar_results pid ord
        ⟨pre ++ ai :: rest, other⟩).metadata.toOption = none ∧
     (download_calib_patient_scalar_results pid ord ⟨pre ++ ai :: rest, other⟩).files =
       (runArms pid true "ScalarArrays" "scalarValues" pre ⟨[], ([], []), []⟩).1.files) ∧
    ((runArms pid true "ScalarArrays" "scalarValues" other ⟨[], ([], []), []⟩).2 = none →
     (download_calib_patient_scalar_results pid ord
        ⟨other, pre ++ ai :: rest⟩).metadata.toOption = none ∧
     (download_calib_patient_scalar_results pid ord ⟨other, pre ++ ai :: rest⟩).files =
       (runArms pid false "CategoricalArrays" "categoricalLevels" pre
         ⟨(runArms pid true "ScalarArrays" "scalarValues" other ⟨[], ([], []), []⟩).1.arms,
          ([], []),
          (runArms pid true "ScalarArrays" "scalarValues" other
            ⟨[], ([], []), []⟩).1.files⟩).1.files) := by
  constructor
  · unfold download_calib_patient_scalar_results
    rw [runArms_append]
    rcases hr : runArms pid true "ScalarArrays" "scalarValues" pre ⟨[], ([], []), []⟩
      with ⟨st', err⟩
    rcases err with _ | e
    · simp only [runArms]
      rcases hpn : ai.patientNumber with _ | pn
      · simp [Except.toOption]
      · have hne : ¬(pn = pid) := fun hh => hb (by rw [hpn, hh])
        simp [hne, Except.toOption]
    · simp [Except.toOption]
  · intro hclean
    unfold download_calib_patient_scalar_results
    rcases hr1 : runArms pid true "ScalarArrays" "scalarValues" other ⟨[], ([], []), []⟩
      with ⟨st1, err1⟩
    rw [hr1] at hclean
    simp only at hclean
    subst hclean
    simp only
    rw [runArms_append]
    rcases hr : runArms pid false "CategoricalArrays" "categoricalLevels" pre
      ⟨st1.arms, ([], []), st1.files⟩ with ⟨st', err⟩
    rcases err with _ | e
    · simp only [runArms]
      rcases hpn : ai.patientNumber with _ | pn
      · simp [Except.toOption]
      · have hne : ¬(pn = pid) := fun hh => hb (by rw [hpn, hh])
        simp [hne, Except.toOption]
    · simp [Except.toOption]

theorem c2_abort_no_metadata_witness :
    ((download_calib_patient_scalar_results 1 id
      ⟨[⟨"armA", some 1, [[("id", JVal.atom (.jstr "s1")),
          ("type", JVal.atom (.jstr "Numeric")), ("value", JVal.atom (.jnum 48))]]⟩,
        ⟨"armB", none, []⟩], []⟩).metadata.toOption = none ∧
     (download_calib_patient_scalar_results 1 id
      ⟨[⟨"armA", some 1, [[("id", JVal.atom (.jstr "s1")),
          ("type", JVal.atom (.jstr "Numeric")), ("value", JVal.atom (.jnum 48))]]⟩,
        ⟨"armB", none, []⟩], []⟩).files =
       (runArms 1 true "ScalarArrays" "scalarValues"
         [⟨"armA", some 1, [[("id", JVal.atom (.jstr "s1")),
           ("type", JVal.atom (.jstr "Numeric")), ("value", JVal.atom (.jnum 48))]]⟩]
         ⟨[], ([], []), []⟩).1.files) ∧
    ((download_calib_patient_scalar_results 1 id
      ⟨[⟨"armZ", some 1, [[("id", JVal.atom (.jstr "s2")),
          ("type", JVal.atom (.jstr "Numeric")), ("value", JVal.atom (.jnum 7))]]⟩],
       [⟨"armC", some 1, [[("id", JVal.atom (.jstr "c1")),
          ("type", JVal.atom (.jstr "Categorical")), ("value", JVal.atom (.jstr "low"))]]⟩,
        ⟨"armD", some 2, []⟩]⟩).metadata.toOption = none ∧
     (download_calib_patient_scalar_results 1 id
      ⟨[⟨"armZ", some 1, [[("id", JVal.atom (.jstr "s2")),
          ("type", JVal.atom (.jstr "Numeric")), ("value", JVal.atom (.jnum 7))]]⟩],
       [⟨"armC", some 1, [[("id", JVal.atom (.jstr "c1")),
          ("type", JVal.atom (.jstr "Categorical")), ("value", JVal.atom (.jstr "low"))]]⟩,
        ⟨"armD", some 2, []⟩]⟩).files =
       (runArms 1 false "CategoricalArrays" "categoricalLevels"
         [⟨"armC", some 1, [[("id", JVal.atom (.jstr "c1")),
           ("type", JVal.atom (.jstr "Categorical")), ("value", JVal.atom (.jstr "low"))]]⟩]
         ⟨(runArms 1 true "ScalarArrays" "scalarValues"
            [⟨"armZ", some 1, [[("id", JVal.atom (.jstr "s2")),
              ("type", JVal.atom (.jstr "Numeric")), ("value", JVal.atom (.jnum 7))]]⟩]
            ⟨[], ([], []), []⟩).1.arms,
          ([], []),
          (runArms 1 true "ScalarArrays" "scalarValues"
            [⟨"armZ", some 1, [[("id", JVal.atom (.jstr "s2")),
              ("type", JVal.atom (.jstr "Numeric")), ("value", JVal.atom (.jnum 7))]]⟩]
            ⟨[], ([], []), []⟩).1.files⟩).1.files) :=
  ⟨(c2_abort_no_metadata 1 id
      [⟨"armA", some 1, [[("id", JVal.atom (.jstr "s1")),
          ("type", JVal.atom (.jstr "Numeric")), ("value", JVal.atom (.jnum 48))]]⟩]
      [] [] ⟨"armB", none, []⟩ (by decide)).1,
   (c2_abort_no_metadata 1 id
      [⟨"armC", some 1, [[("id", JVal.atom (.jstr "c1")),
          ("type", JVal.atom (.jstr "Categorical")), ("value", JVal.atom (.jstr "low"))]]⟩]
      []
      [⟨"armZ", some 1, [[("id", JVal.atom (.jstr "s2")),
          ("type", JVal.atom (.jstr "Numeric")), ("value", JVal.atom (.jnum 7))]]⟩]
      ⟨"armD", some 2, []⟩ (by decide)).2 (by decide)⟩
/-! ## Set semantics of the metadata aggregator (claim C3) -/

theorem aget_append_left {κ β : Type} [DecidableEq κ] (d d' : List (κ × β)) (k : κ) (v : β)
    (h : aget d k = some v) : aget (d ++ d') k = some v := by
  rw [aget_append, h]
  rfl

theorem aget_append_none {κ β : Type} [DecidableEq κ] (d d' : List (κ × β)) (k : κ)
    (h : aget d k = none) : aget (d ++ d') k = aget d' k := by
  rw [aget_append, h]
  rfl

theorem armsAdd_arms (e : Dict) (a : String) (l : List JAtom)
    (h : aget e "arms" = some (.arr l)) :
    aget (armsAdd e a) "arms" =
      some (.arr (if JAtom.jstr a ∈ l then l else l ++ [JAtom.jstr a])) := by
  rw [armsAdd, h]
  simp [setAdd, aget_aset_self]

theorem newEntry_arms (scalarId : JVal) (ty : JVal) (hasUnit : Bool) (scalarUnit : JVal) :
    aget (([("arms", JVal.arr []), ("description", JVal.atom .jnull),
      ("id", scalarId), ("type", ty)] ++
        (if hasUnit then [("unit", scalarUnit)] else []) : Dict)) "arms" =
      some (JVal.arr []) := by
  simp [aget]

theorem crossEntry_no_arms (scalarId : JVal) (ty : JVal) (hasUnit : Bool) (scalarUnit : JVal) :
    aget (([("description", JVal.atom .jnull), ("id", scalarId), ("type", ty)] ++
        (if hasUnit then [("unit", scalarUnit)] else []) : Dict)) "arms" = none := by
  cases hasUnit <;> simp [aget]

theorem nodup_concat {α : Type} (l : List α) (x : α) (hnd : l.Nodup) (hx : x ∉ l) :
    (l ++ [x]).Nodup := by
  simp [List.nodup_append, hnd, hx]

theorem observe_inv (h : Bool) (a : String) (st st' : MdPair) (r : Dict)
    (hinv : ArmsInv st) (hok : observeScalar h a st r = .ok st') : ArmsInv st' := by
  simp only [observeScalar] at hok
  rcases hid : aget r "id" with _ | sid
  · simp only [hid] at hok
    simp at hok
  · simp only [hid] at hok
    by_cases hc : a = "crossArms"
    · rw [if_pos hc] at hok
      rcases h2 : aget st.2 sid with _ | e2
      · simp only [h2] at hok
        rcases hty : aget r "type" with _ | ty
        · simp only [hty] at hok
          simp at hok
        · simp only [hty] at hok
          simp only [Except.ok.injEq] at hok
          subst hok
          refine ⟨hinv.1, ?_⟩
          intro p hp
          rcases List.mem_append.mp hp with hp | hp
          · exact hinv.2 p hp
          · simp only [List.mem_singleton] at hp
            subst hp
            exact crossEntry_no_arms sid ty h _
      · simp only [h2] at hok
        simp only [Except.ok.injEq] at hok
        subst hok
        exact hinv
    · rw [if_neg hc] at hok
      rcases h1 : aget st.1 sid with _ | e
      · simp only [h1] at hok
        rcases hty : aget r "type" with _ | ty
        · simp only [hty] at hok
          simp at hok
        · simp only [hty] at hok
          simp only [Except.ok.injEq] at hok
          subst hok
          refine ⟨?_, hinv.2⟩
          intro p hp
          rcases List.mem_append.mp hp with hp | hp
          · exact hinv.1 p hp
          · simp only [List.mem_singleton] at hp
            subst hp
            refine ⟨[JAtom.jstr a], ?_, List.nodup_singleton _⟩
            have harm := newEntry_arms sid ty h ((aget r "unit").getD (JVal.atom .jnull))
            rw [armsAdd_arms _ _ _ harm]
            simp
      · simp only [h1] at hok
        simp only [Except.ok.injEq] at hok
        subst hok
        refine ⟨?_, hinv.2⟩
        intro p hp
        rcases mem_aset _ _ _ _ hp with hp | hp
        · subst hp
          obtain ⟨l, hl, hnd⟩ := hinv.1 (sid, e) (aget_mem _ _ _ h1)
          by_cases hm : JAtom.jstr a ∈ l
          · exact ⟨l, by rw [armsAdd_arms _ _ _ hl, if_pos hm], hnd⟩
          · exact ⟨l ++ [JAtom.jstr a], by rw [armsAdd_arms _ _ _ hl, if_neg hm],
              nodup_concat _ _ hnd hm⟩
        · exact hinv.1 p hp

theorem observe_mono (h : Bool) (a : String) (st st' : MdPair) (r : Dict)
    (hok : observeScalar h a st r = .ok st') (sid0 : JVal) :
    (∀ a0, HasArm st sid0 a0 → HasArm st' sid0 a0) ∧
    (HasCross st sid0 → HasCross st' sid0) := by
  simp only [observeScalar] at hok
  rcases hid : aget r "id" with _ | sid
  · simp only [hid] at hok
    simp at hok
  · simp only [hid] at hok
    by_cases hc : a = "crossArms"
    · rw [if_pos hc] at hok
      rcases h2 : aget st.2 sid with _ | e2
      · simp only [h2] at hok
        rcases hty : aget r "type" with _ | ty
        · simp only [hty] at hok
          simp at hok
        · simp only [hty] at hok
          simp only [Except.ok.injEq] at hok
          subst hok
          refine ⟨fun a0 ha => ha, fun hx => ?_⟩
          obtain ⟨e0, he0⟩ := hx
          exact ⟨e0, aget_append_left _ _ _ _ he0⟩
      · simp only [h2] at hok
        simp only [Except.ok.injEq] at hok
        subst hok
        exact ⟨fun a0 ha => ha, fun hx => hx⟩
    · rw [if_neg hc] at hok
      rcases h1 : aget st.1 sid with _ | e
      · simp only [h1] at hok
        rcases hty : aget r "type" with _ | ty
        · simp only [hty] at hok
          simp at hok
        · simp only [hty] at hok
          simp only [Except.ok.injEq] at hok
          subst hok
          refine ⟨fun a0 ha => ?_, fun hx => hx⟩
          obtain ⟨e0, l0, he0, hl0, hm0⟩ := ha
          exact ⟨e0, l0, aget_append_left _ _ _ _ he0, hl0, hm0⟩
      · simp only [h1] at hok
        simp only [Except.ok.injEq] at hok
        subst hok
        refine ⟨fun a0 ha => ?_, fun hx => hx⟩
        obtain ⟨e0, l0, he0, hl0, hm0⟩ := ha
        by_cases hs : sid0 = sid
        · subst hs
          rw [h1] at he0
          injection he0 with heq
          subst heq
          refine ⟨armsAdd e a, ?_⟩
          rw [aget_aset_self]
          by_cases hm : JAtom.jstr a ∈ l0
          · refine ⟨l0, ⟨rfl, ?_, hm0⟩⟩
            rw [armsAdd_arms _ _ _ hl0, if_pos hm]
          · refine ⟨l0 ++ [JAtom.jstr a], ⟨rfl, ?_, List.mem_append_left _ hm0⟩⟩
            rw [armsAdd_arms _ _ _ hl0, if_neg hm]
        · refine ⟨e0, l0, ?_, hl0, hm0⟩
          rw [aget_aset_ne _ _ _ _ hs, he0]

theorem observe_estab (h : Bool) (a : String) (st st' : MdPair) (r : Dict) (sid : JVal)
    (hinv : ArmsInv st) (hok : observeScalar h a st r = .ok st')
    (hid : aget r "id" = some sid) :
    (a ≠ "crossArms" → HasArm st' sid a) ∧ (a = "crossArms" → HasCross st' sid) := by
  simp only [observeScalar, hid] at hok
  by_cases hc : a = "crossArms"
  · rw [if_pos hc] at hok
    refine ⟨fun hna => absurd hc hna, fun _ => ?_⟩
    rcases h2 : aget st.2 sid with _ | e2
    · simp only [h2] at hok
      rcases hty : aget r "type" with _ | ty
      · simp only [hty] at hok
        simp at hok
      · simp only [hty] at hok
        simp only [Except.ok.injEq] at hok
        subst hok
        refine ⟨[("description", JVal.atom .jnull), ("id", sid), ("type", ty)] ++
          (if h then [("unit", (aget r "unit").getD (JVal.atom .jnull))] else []), ?_⟩
        rw [aget_append_none _ _ _ h2]
        simp [aget]
    · simp only [h2] at hok
      simp only [Except.ok.injEq] at hok
      subst hok
      exact ⟨e2, h2⟩
  · rw [if_neg hc] at hok
    refine ⟨fun _ => ?_, fun ha => absurd ha hc⟩
    rcases h1 : aget st.1 sid with _ | e
    · simp only [h1] at hok
      rcases hty : aget r "type" with _ | ty
      · simp only [hty] at hok
        simp at hok
      · simp only [hty] at hok
        simp only [Except.ok.injEq] at hok
        subst hok
        refine ⟨armsAdd ([("arms", JVal.arr []), ("description", JVal.atom .jnull),
          ("id", sid), ("type", ty)] ++
            (if h then [("unit", (aget r "unit").getD (JVal.atom .jnull))] else [])) a,
          [JAtom.jstr a], ?_, ?_, List.mem_singleton_self _⟩
        · rw [aget_append_none _ _ _ h1]
          simp [aget]
        · have harm := newEntry_arms sid ty h ((aget r "unit").getD (JVal.atom .jnull))
          rw [armsAdd_arms _ _ _ harm]
          simp
    · simp only [h1] at hok
      simp only [Except.ok.injEq] at hok
      subst hok
      obtain ⟨l, hl, hnd⟩ := hinv.1 (sid, e) (aget_mem _ _ _ h1)
      refine ⟨armsAdd e a, ?_⟩
      rw [aget_aset_self]
      by_cases hm : JAtom.jstr a ∈ l
      · refine ⟨l, ⟨rfl, ?_, hm⟩⟩
        rw [armsAdd_arms _ _ _ hl, if_pos hm]
      · refine ⟨l ++ [JAtom.jstr a], ⟨rfl, ?_, by simp⟩⟩
        rw [armsAdd_arms _ _ _ hl, if_neg hm]

theorem foldObserve_inv (h : Bool) (obss : List (String × Dict)) :
    ∀ st st', ArmsInv st → foldObserve h obss st = .ok st' → ArmsInv st' := by
  induction obss with
  | nil =>
    intro st st' hinv hok
    simp only [foldObserve, Except.ok.injEq] at hok
    subst hok
    exact hinv
  | cons p rest ih =>
    intro st st' hinv hok
    obtain ⟨a, r⟩ := p
    simp only [foldObserve] at hok
    rcases hstep : observeScalar h a st r with e | st1
    · rw [hstep] at hok
      simp at hok
    · rw [hstep] at hok
      exact ih st1 st' (observe_inv h a st st1 r hinv hstep) hok

theorem foldObserve_mono (h : Bool) (obss : List (String × Dict)) :
    ∀ st st', foldObserve h obss st = .ok st' → ∀ sid,
      (∀ a0, HasArm st sid a0 → HasArm st' sid a0) ∧
      (HasCross st sid → HasCross st' sid) := by
  induction obss with
  | nil =>
    intro st st' hok sid
    simp only [foldObserve, Except.ok.injEq] at hok
    subst hok
    exact ⟨fun a0 ha => ha, fun hx => hx⟩
  | cons p rest ih =>
    intro st st' hok sid
    obtain ⟨a, r⟩ := p
    simp only [foldObserve] at hok
    rcases hstep : observeScalar h a st r with e | st1
    · rw [hstep] at hok
      simp at hok
    · rw [hstep] at hok
      obtain ⟨m1, m2⟩ := observe_mono h a st st1 r hstep sid
      obtain ⟨f1, f2⟩ := ih st1 st' hok sid
      exact ⟨fun a0 ha => f1 a0 (m1 a0 ha), fun hx => f2 (m2 hx)⟩

theorem foldObserve_estab (h : Bool) (obss : List (String × Dict)) :
    ∀ st st', ArmsInv st → foldObserve h obss st = .ok st' →
      ∀ p ∈ obss, ∀ sid, aget p.2 "id" = some sid →
        (p.1 ≠ "crossArms" → HasArm st' sid p.1) ∧
        (p.1 = "crossArms" → HasCross st' sid) := by
  induction obss with
  | nil =>
    intro st st' _ _ p hp
    simp at hp
  | cons q rest ih =>
    intro st st' hinv hok p hp sid hsid
    obtain ⟨a, r⟩ := q
    simp only [foldObserve] at hok
    rcases hstep : observeScalar h a st r with e | st1
    · rw [hstep] at hok
      simp at hok
    · rw [hstep] at hok
      rcases List.mem_cons.mp hp with hp | hp
    -- head observation: established after the step, preserved by the rest
      · subst hp
        obtain ⟨e1, e2⟩ := observe_estab h a st st1 r sid hinv hstep hsid
        obtain ⟨f1, f2⟩ := foldObserve_mono h rest st1 st' hok sid
        exact ⟨fun hna => f1 a (e1 hna), fun ha => f2 (e2 ha)⟩
      · exact ih st1 st' (observe_inv h a st st1 r hinv hstep) hok p hp sid hsid

/-- C3: over any sequence of observations fed to the metadata aggregator
from empty dicts, a scalar id observed under a non-cross arm any number of
times carries exactly one entry for that arm in its `"arms"` list, while a
scalar id observed under the reserved `"crossArms"` pseudo-arm gets its
entry in the separate cross-arm metadata dict with no `"arms"` field. -/
theorem c3_aggregator_set_semantics (h : Bool) (obss : List (String × Dict))
    (md cmd : List (JVal × Dict))
    (hok : foldObserve h obss ([], []) = .ok (md, cmd)) :
    (∀ a r, (a, r) ∈ obss → a ≠ "crossArms" → ∀ sid, aget r "id" = some sid →
      ∃ e l, aget md sid = some e ∧ aget e "arms" = some (JVal.arr l) ∧
        l.count (JAtom.jstr a) = 1) ∧
    (∀ a r, (a, r) ∈ obss → a = "crossArms" → ∀ sid, aget r "id" = some sid →
      ∃ e, aget cmd sid = some e ∧ aget e "arms" = none) := by
  have hinv0 : ArmsInv ([], []) := ⟨by simp, by simp⟩
  have hinv := foldObserve_inv h obss ([], []) (md, cmd) hinv0 hok
  have hestab := foldObserve_estab h obss ([], []) (md, cmd) hinv0 hok
  constructor
  · intro a r hmem hna sid hsid
    obtain ⟨e, l, he, hl, hm⟩ := (hestab (a, r) hmem sid hsid).1 hna
    obtain ⟨l', hl', hnd⟩ := hinv.1 (sid, e) (aget_mem _ _ _ he)
    rw [hl] at hl'
    injection hl' with hl'
    injection hl' with hl'
    subst hl'
    exact ⟨e, l, he, hl, List.count_eq_one_of_mem hnd hm⟩
  · intro a r hmem ha sid hsid
    obtain ⟨e, he⟩ := (hestab (a, r) hmem sid hsid).2 ha
    exact ⟨e, he, hinv.2 (sid, e) (aget_mem _ _ _ he)⟩

theorem c3_aggregator_set_semantics_witness :
    (∃ e l,
      aget [(JVal.atom (JAtom.jstr "s1"),
        ([("arms", JVal.arr [JAtom.jstr "armA"]), ("description", JVal.atom .jnull),
          ("id", JVal.atom (JAtom.jstr "s1")), ("type", JVal.atom (JAtom.jstr "Numeric")),
          ("unit", JVal.atom .jnull)] : Dict))] (JVal.atom (JAtom.jstr "s1")) = some e ∧
      aget e "arms" = some (JVal.arr l) ∧ l.count (JAtom.jstr "armA") = 1) ∧
    (∃ e,
      aget [(JVal.atom (JAtom.jstr "s1"),
        ([("description", JVal.atom .jnull), ("id", JVal.atom (JAtom.jstr "s1")),
          ("type", JVal.atom (JAtom.jstr "Numeric")),
          ("unit", JVal.atom .jnull)] : Dict))] (JVal.atom (JAtom.jstr "s1")) = some e ∧
      aget e "arms" = none) :=
  ⟨(c3_aggregator_set_semantics true
      [("armA", [("id", .atom (.jstr "s1")), ("type", .atom (.jstr "Numeric"))]),
       ("armA", [("id", .atom (.jstr "s1")), ("type", .atom (.jstr "Numeric"))]),
       ("crossArms", [("id", .atom (.jstr "s1")), ("type", .atom (.jstr "Numeric"))])]
      _ _ rfl).1 "armA"
      [("id", .atom (.jstr "s1")), ("type", .atom (.jstr "Numeric"))]
      (by decide) (by decide) (JVal.atom (JAtom.jstr "s1")) (by decide),
   (c3_aggregator_set_semantics true
      [("armA", [("id", .atom (.jstr "s1")), ("type", .atom (.jstr "Numeric"))]),
       ("armA", [("id", .atom (.jstr "s1")), ("type", .atom (.jstr "Numeric"))]),
       ("crossArms", [("id", .atom (.jstr "s1")), ("type", .atom (.jstr "Numeric"))])]
      _ _ rfl).2 "crossArms"
      [("id", .atom (.jstr "s1")), ("type", .atom (.jstr "Numeric"))]
      (by decide) rfl (JVal.atom (JAtom.jstr "s1")) (by decide)⟩

/-! ## Cross-run determinism of the metadata output (claim C4) -/

/-- C4: the finalized metadata is NOT a function of the input alone — it
depends on the iteration order of the Python string `set`s (`list(arms)`,
`list(entry["arms"])`), which CPython randomizes across processes via the
string hash seed.  Two admissible set enumerations (insertion order and its
reverse, both permutations of the same set) yield different
`ScalarMetaData.json` payloads for the same successfully processed input,
so two runs over identical inputs in identical order can differ. -/
theorem c4_metadata_order_not_input_determined :
    (download_calib_patient_scalar_results 1 id
      ⟨[⟨"armA", some 1, [[("id", JVal.atom (.jstr "s1")),
          ("type", JVal.atom (.jstr "Numeric")), ("value", JVal.atom (.jnum 48))]]⟩,
        ⟨"armB", some 1, [[("id", JVal.atom (.jstr "s1")),
          ("type", JVal.atom (.jstr "Numeric")), ("value", JVal.atom (.jnum 50))]]⟩],
       []⟩).metadata.toOption ≠ none ∧
    (download_calib_patient_scalar_results 1 List.reverse
      ⟨[⟨"armA", some 1, [[("id", JVal.atom (.jstr "s1")),
          ("type", JVal.atom (.jstr "Numeric")), ("value", JVal.atom (.jnum 48))]]⟩,
        ⟨"armB", some 1, [[("id", JVal.atom (.jstr "s1")),
          ("type", JVal.atom (.jstr "Numeric")), ("value", JVal.atom (.jnum 50))]]⟩],
       []⟩).metadata.toOption ≠ none ∧
    (download_calib_patient_scalar_results 1 id
      ⟨[⟨"armA", some 1, [[("id", JVal.atom (.jstr "s1")),
          ("type", JVal.atom (.jstr "Numeric")), ("value", JVal.atom (.jnum 48))]]⟩,
        ⟨"armB", some 1, [[("id", JVal.atom (.jstr "s1")),
          ("type", JVal.atom (.jstr "Numeric")), ("value", JVal.atom (.jnum 50))]]⟩],
       []⟩).metadata.toOption ≠
    (download_calib_patient_scalar_results 1 List.reverse
      ⟨[⟨"armA", some 1, [[("id", JVal.atom (.jstr "s1")),
          ("type", JVal.atom (.jstr "Numeric")), ("value", JVal.atom (.jnum 48))]]⟩,
        ⟨"armB", some 1, [[("id", JVal.atom (.jstr "s1")),
          ("type", JVal.atom (.jstr "Numeric")), ("value", JVal.atom (.jnum 50))]]⟩],
       []⟩).metadata.toOption := by
  refine ⟨by decide, by decide, by decide⟩

/-! ## The key-indexed mergers (claims C5, C6, C7) and the CSV merger
(claims C8, C9) -/

theorem kcoherent_subset {α κ : Type} (key : α → κ) (l1 l2 : List α)
    (hsub : ∀ x ∈ l1, x ∈ l2) (h : KCoherent key l2) : KCoherent key l1 :=
  fun x hx y hy hk => h x (hsub x hx) y (hsub y hy) hk

theorem find_some_facts {α κ : Type} [DecidableEq κ] (key : α → κ) {acc : List α} {x y : α}
    (h : acc.find? (fun z => decide (key z = key x)) = some y) :
    y ∈ acc ∧ key y = key x := by
  refine ⟨List.mem_of_find?_eq_some h, ?_⟩
  have := List.find?_some h
  simpa using this

theorem find_none_facts {α κ : Type} [DecidableEq κ] (key : α → κ) {acc : List α} {x : α}
    (h : acc.find? (fun z => decide (key z = key x)) = none) :
    ∀ y ∈ acc, key y ≠ key x := by
  intro y hy
  have := List.find?_eq_none.mp h y hy
  simpa using this

theorem nodupkeys_coherent {α κ : Type} (key : α → κ) :
    ∀ l : List α, (l.map key).Nodup → KCoherent key l := by
  intro l
  induction l with
  | nil =>
    intro _ a ha
    simp at ha
  | cons c cs ih =>
    intro hnd a ha b hb hk
    simp only [List.map_cons, List.nodup_cons] at hnd
    obtain ⟨hc, hcs⟩ := hnd
    rcases List.mem_cons.mp ha with rfl | ha' <;> rcases List.mem_cons.mp hb with rfl | hb'
    · rfl
    · exact absurd (hk ▸ List.mem_map_of_mem key hb') hc
    · exact absurd (hk ▸ List.mem_map_of_mem key ha') hc
    · exact ih hcs a ha' b hb' hk

theorem mergeByKey_coherent_some {α κ : Type} [DecidableEq α] [DecidableEq κ] (key : α → κ) :
    ∀ (l acc : List α), (acc.map key).Nodup → KCoherent key (acc ++ l) →
      mergeByKey key acc l = some (dedupByKey key acc l) := by
  intro l
  induction l with
  | nil =>
    intro acc _ _
    rfl
  | cons x rest ih =>
    intro acc hnd hco
    simp only [mergeByKey, dedupByKey]
    rcases hf : acc.find? (fun z => decide (key z = key x)) with _ | y
    · have hnd' : ((acc ++ [x]).map key).Nodup := by
        have hx : key x ∉ acc.map key := by
          intro hmem
          obtain ⟨z, hz, hkz⟩ := List.mem_map.mp hmem
          exact find_none_facts key hf z hz hkz
        simp [List.nodup_append, hnd, hx]
      have hco' : KCoherent key ((acc ++ [x]) ++ rest) := by
        refine kcoherent_subset key _ _ (fun z hz => ?_) hco
        simp at hz ⊢
        tauto
      exact ih (acc ++ [x]) hnd' hco'
    · obtain ⟨hy, hk⟩ := find_some_facts key hf
      have hyx : y = x := hco y (List.mem_append_left _ hy) x
        (List.mem_append_right _ (List.mem_cons_self _ _)) hk
      show (if y = x then mergeByKey key acc rest else none) = some (dedupByKey key acc rest)
      rw [if_pos hyx]
      have hco' : KCoherent key (acc ++ rest) := by
        refine kcoherent_subset key _ _ (fun z hz => ?_) hco
        simp at hz ⊢
        tauto
      exact ih acc hnd hco'

theorem mergeByKey_incoherent_none {α κ : Type} [DecidableEq α] [DecidableEq κ] (key : α → κ) :
    ∀ (l acc : List α), (acc.map key).Nodup → ¬ KCoherent key (acc ++ l) →
      mergeByKey key acc l = none := by
  intro l
  induction l with
  | nil =>
    intro acc hnd hco
    exact absurd (by simpa using nodupkeys_coherent key acc hnd) hco
  | cons x rest ih =>
    intro acc hnd hco
    simp only [mergeByKey]
    rcases hf : acc.find? (fun z => decide (key z = key x)) with _ | y
    · have hnd' : ((acc ++ [x]).map key).Nodup := by
        have hx : key x ∉ acc.map key := by
          intro hmem
          obtain ⟨z, hz, hkz⟩ := List.mem_map.mp hmem
          exact find_none_facts key hf z hz hkz
        simp [List.nodup_append, hnd, hx]
      have hco' : ¬ KCoherent key ((acc ++ [x]) ++ rest) := by
        intro hc
        exact hco (kcoherent_subset key _ _ (fun z hz => by simp at hz ⊢; tauto) hc)
      exact ih (acc ++ [x]) hnd' hco'
    · obtain ⟨hy, hk⟩ := find_some_facts key hf
      by_cases hyx : y = x
      · show (if y = x then mergeByKey key acc rest else none) = none
        rw [if_pos hyx]
        subst hyx
        have hco' : ¬ KCoherent key (acc ++ rest) := by
          intro hc
          refine hco (kcoherent_subset key _ _ (fun z hz => ?_) hc)
          simp at hz ⊢
          rcases hz with hz | rfl | hz
          · tauto
          · tauto
          · tauto
        exact ih acc hnd hco'
      · show (if y = x then mergeByKey key acc rest else none) = none
        rw [if_neg hyx]

theorem dedupByKey_append {α κ : Type} [DecidableEq κ] (key : α → κ) :
    ∀ (l1 l2 acc : List α),
      dedupByKey key acc (l1 ++ l2) = dedupByKey key (dedupByKey key acc l1) l2 := by
  intro l1
  induction l1 with
  | nil => intro l2 acc; rfl
  | cons x rest ih =>
    intro l2 acc
    simp only [List.cons_append, dedupByKey]
    by_cases hf : (acc.find? (fun y => decide (key y = key x))).isSome
    · rw [if_pos hf, if_pos hf]
      exact ih l2 acc
    · rw [if_neg hf, if_neg hf]
      exact ih l2 (acc ++ [x])

theorem dedupByKey_fresh {α κ : Type} [DecidableEq κ] (key : α → κ) :
    ∀ (l acc : List α), (((acc ++ l).map key)).Nodup → dedupByKey key acc l = acc ++ l := by
  intro l
  induction l with
  | nil =>
    intro acc _
    simp [dedupByKey]
  | cons x rest ih =>
    intro acc hnd
    have hx : key x ∉ acc.map key := by
      intro hmem
      obtain ⟨z, hz, hkz⟩ := List.mem_map.mp hmem
      have : (acc.map key ++ (key x :: rest.map key)).Nodup := by simpa using hnd
      rw [List.nodup_append] at this
      exact this.2.2 hmem (by simp)
    have hf : acc.find? (fun y => decide (key y = key x)) = none := by
      rw [List.find?_eq_none]
      intro y hy
      simp only [decide_eq_true_eq]
      intro hk
      exact hx (hk ▸ List.mem_map_of_mem key hy)
    simp only [dedupByKey, hf, Option.isSome_none, Bool.false_eq_true, if_false]
    have : dedupByKey key (acc ++ [x]) rest = (acc ++ [x]) ++ rest := by
      apply ih
      simpa using hnd
    rw [this]
    simp

theorem dedupByKey_absorb {α κ : Type} [DecidableEq κ] (key : α → κ) :
    ∀ (l acc : List α), (∀ x ∈ l, ∃ y ∈ acc, key y = key x) → dedupByKey key acc l = acc := by
  intro l
  induction l with
  | nil =>
    intro acc _
    rfl
  | cons x rest ih =>
    intro acc habs
    obtain ⟨y, hy, hk⟩ := habs x (by simp)
    have hf : (acc.find? (fun z => decide (key z = key x))).isSome := by
      rw [List.find?_isSome]
      exact ⟨y, hy, by simpa using hk⟩
    simp only [dedupByKey, if_pos hf]
    exact ih acc (fun z hz => habs z (by simp [hz]))

theorem incoherent_iff_pair {α κ : Type} (key : α → κ) (ls : List (List α))
    (hwf : ∀ v ∈ ls, (v.map key).Nodup) :
    (¬ KCoherent key ls.flatten) ↔
      ∃ i j : Fin ls.length, i ≠ j ∧ ∃ p ∈ ls.get i, ∃ q ∈ ls.get j,
        key p = key q ∧ p ≠ q := by
  constructor
  · intro hco
    simp only [KCoherent, not_forall] at hco
    obtain ⟨p, hp, q, hq, hk, hne⟩ := hco
    obtain ⟨v, hv, hpv⟩ := List.mem_flatten.mp hp
    obtain ⟨w, hw, hqw⟩ := List.mem_flatten.mp hq
    obtain ⟨i, hi⟩ := List.mem_iff_get.mp hv
    obtain ⟨j, hj⟩ := List.mem_iff_get.mp hw
    refine ⟨i, j, ?_, p, hi.symm ▸ hpv, q, hj.symm ▸ hqw, hk, hne⟩
    intro hij
    apply hne
    have hvw : v = w := by rw [← hi, ← hj, hij]
    exact nodupkeys_coherent key v (hwf v hv) p hpv q (hvw ▸ hqw) hk
  · rintro ⟨i, j, hij, p, hp, q, hq, hk, hne⟩
    intro hco
    apply hne
    exact hco p (List.mem_flatten.mpr ⟨ls.get i, List.get_mem ls i.1 i.2, hp⟩)
      q (List.mem_flatten.mpr ⟨ls.get j, List.get_mem ls j.1 j.2, hq⟩) hk

theorem flatten_keys_nodup {α κ : Type} (key : α → κ) :
    ∀ ls : List (List α), (∀ v ∈ ls, (v.map key).Nodup) →
      List.Pairwise (fun v w => ∀ p ∈ v, ∀ q ∈ w, key p ≠ key q) ls →
      ((ls.flatten).map key).Nodup := by
  intro ls
  induction ls with
  | nil =>
    intro _ _
    simp
  | cons v rest ih =>
    intro hwf hpw
    rw [List.pairwise_cons] at hpw
    simp only [List.flatten_cons, List.map_append, List.nodup_append]
    refine ⟨hwf v (by simp), ih (fun w hw => hwf w (by simp [hw])) hpw.2, ?_⟩
    intro a ha hamem
    obtain ⟨p, hp, hkp⟩ := List.mem_map.mp ha
    obtain ⟨q, hq, hkq⟩ := List.mem_map.mp hamem
    obtain ⟨w, hw, hqw⟩ := List.mem_flatten.mp hq
    exact hpw.1 w hw p hp q hqw (by rw [hkp, hkq])

theorem merge_vpops_none_iff (vpops : List (List Patient)) :
    merge_vpops vpops = none ↔ ¬ KCoherent Patient.patientId vpops.flatten := by
  constructor
  · intro hn hco
    have := mergeByKey_coherent_some Patient.patientId vpops.flatten [] (by simp)
      (by simpa using hco)
    rw [merge_vpops] at hn
    rw [this] at hn
    exact Option.noConfusion hn
  · intro hco
    exact mergeByKey_incoherent_none Patient.patientId vpops.flatten [] (by simp)
      (by simpa using hco)

/-- C5: the Vpop merger (for inputs whose patient ids are unique within
each Vpop, the data-model invariant) conflicts if and only if some
patientId occurs in two inputs with differing parameterValues; otherwise
the result is the first-seen-order sequence of patients with later
identical duplicates dropped, and for inputs sharing no patient ids it is
the ordered concatenation of their patients. -/
theorem c5_vpop_merge_conflict_iff (vpops : List (List Patient))
    (hwf : ∀ v ∈ vpops, (v.map Patient.patientId).Nodup) :
    (merge_vpops vpops = none ↔
      ∃ i j : Fin vpops.length, i ≠ j ∧ ∃ p ∈ vpops.get i, ∃ q ∈ vpops.get j,
        p.patientId = q.patientId ∧ p.parameterValues ≠ q.parameterValues) ∧
    (∀ r, merge_vpops vpops = some r →
      r = dedupByKey Patient.patientId [] vpops.flatten) ∧
    (List.Pairwise (fun v w => ∀ p ∈ v, ∀ q ∈ w, p.patientId ≠ q.patientId) vpops →
      merge_vpops vpops = some vpops.flatten) := by
  refine ⟨?_, ?_, ?_⟩
  · rw [merge_vpops_none_iff, incoherent_iff_pair Patient.patientId vpops hwf]
    constructor
    · rintro ⟨i, j, hij, p, hp, q, hq, hk, hne⟩
      refine ⟨i, j, hij, p, hp, q, hq, hk, ?_⟩
      intro hpv
      apply hne
      cases p
      cases q
      simp_all
    · rintro ⟨i, j, hij, p, hp, q, hq, hk, hpv⟩
      exact ⟨i, j, hij, p, hp, q, hq, hk, fun hh => hpv (hh ▸ rfl)⟩
  · intro r hr
    by_cases hco : KCoherent Patient.patientId vpops.flatten
    · have := mergeByKey_coherent_some Patient.patientId vpops.flatten [] (by simp)
        (by simpa using hco)
      rw [merge_vpops, this] at hr
      exact (Option.some.inj hr).symm
    · rw [(merge_vpops_none_iff vpops).mpr hco] at hr
      exact Option.noConfusion hr
  · intro hpw
    have hnd : ((vpops.flatten).map Patient.patientId).Nodup :=
      flatten_keys_nodup Patient.patientId vpops hwf hpw
    have hco := nodupkeys_coherent Patient.patientId vpops.flatten hnd
    have h1 := mergeByKey_coherent_some Patient.patientId vpops.flatten [] (by simp)
      (by simpa using hco)
    rw [merge_vpops, h1, dedupByKey_fresh Patient.patientId vpops.flatten [] (by simpa using hnd)]
    simp

theorem c5_vpop_merge_conflict_iff_witness :
    merge_vpops [[⟨"p1", [("k", JVal.atom (.jnum 1))]⟩],
                 [⟨"p1", [("k", JVal.atom (.jnum 2))]⟩]] = none :=
  (c5_vpop_merge_conflict_iff [[⟨"p1", [("k", JVal.atom (.jnum 1))]⟩], [⟨"p1", [("k", JVal.atom (.jnum 2))]⟩]]
    (by decide)).1.mpr
    ⟨⟨0, by decide⟩, ⟨1, by decide⟩, by decide, ⟨"p1", [("k", JVal.atom (.jnum 1))]⟩,
      by decide, ⟨"p1", [("k", JVal.atom (.jnum 2))]⟩, by decide, rfl, by decide⟩

theorem merge_designs_none_iff (ds : List (List (String × JVal))) :
    merge_vpop_designs ds = none ↔ ¬ KCoherent Prod.fst ds.flatten := by
  constructor
  · intro hn hco
    have := mergeByKey_coherent_some Prod.fst ds.flatten [] (by simp) (by simpa using hco)
    rw [merge_vpop_designs] at hn
    rw [this] at hn
    exact Option.noConfusion hn
  · intro hco
    exact mergeByKey_incoherent_none Prod.fst ds.flatten [] (by simp) (by simpa using hco)

theorem mergeByKey_self_once {α κ : Type} [DecidableEq α] [DecidableEq κ] (key : α → κ)
    (X : List α) (hX : (X.map key).Nodup) :
    mergeByKey key [] (X ++ []) = some X ∧ mergeByKey key [] (X ++ (X ++ [])) = some X := by
  have hco : KCoherent key X := nodupkeys_coherent key X hX
  constructor
  · rw [List.append_nil]
    rw [mergeByKey_coherent_some key X [] (by simp) (by simpa using hco)]
    rw [dedupByKey_fresh key X [] (by simpa using hX)]
    simp
  · rw [List.append_nil]
    have hco2 : KCoherent key (X ++ X) := by
      refine kcoherent_subset key _ _ (fun z hz => ?_) hco
      simpa using (List.mem_append.mp hz).elim id id
    rw [mergeByKey_coherent_some key (X ++ X) [] (by simp) (by simpa using hco2)]
    rw [dedupByKey_append key X X []]
    rw [dedupByKey_fresh key X [] (by simpa using hX)]
    simp only [List.nil_append]
    rw [dedupByKey_absorb key X X (fun x hx => ⟨x, hx, rfl⟩)]

/-- C6 (amended): the identity law holds for a one-element list for all
three mergers and for `[X, X]` for the Vpop and VpopDesign mergers (for
well-formed inputs); the CSV merger on `[T, T]`, however, returns the
row-concatenation of `T` with itself, not `T`. -/
theorem c6_merger_identity_amended (X : List Patient) (D : List (String × JVal)) (T : CsvTable)
    (hX : (X.map Patient.patientId).Nodup) (hD : (D.map Prod.fst).Nodup) :
    merge_vpops [X] = some X ∧ merge_vpops [X, X] = some X ∧
    merge_vpop_designs [D] = some D ∧ merge_vpop_designs [D, D] = some D ∧
    merge_csv [T] = .single T ∧
    merge_csv [T, T] = .single ⟨T.name, T.columns, T.rows ++ T.rows⟩ := by
  obtain ⟨hp1, hp2⟩ := mergeByKey_self_once Patient.patientId X hX
  obtain ⟨hd1, hd2⟩ := mergeByKey_self_once Prod.fst D hD
  refine ⟨?_, ?_, ?_, ?_, ?_, ?_⟩
  · simpa [merge_vpops] using hp1
  · simpa [merge_vpops] using hp2
  · simpa [merge_vpop_designs] using hd1
  · simpa [merge_vpop_designs] using hd2
  · simp [merge_csv]
  · simp [merge_csv]

theorem c6_merger_identity_amended_witness :
    merge_vpops [[⟨"p1", [("k", JVal.atom (.jnum 1))]⟩]] =
      some [⟨"p1", [("k", JVal.atom (.jnum 1))]⟩] ∧
    merge_vpop_designs [[("d1", JVal.atom (.jnum 3))], [("d1", JVal.atom (.jnum 3))]] =
      some [("d1", JVal.atom (.jnum 3))] ∧
    merge_csv [⟨"a.csv", ["x"], [["1"]]⟩, ⟨"a.csv", ["x"], [["1"]]⟩] =
      .single ⟨"a.csv", ["x"], [["1"], ["1"]]⟩ := by
  obtain ⟨h1, h2, h3, h4, h5, h6⟩ := c6_merger_identity_amended [⟨"p1", [("k", JVal.atom (.jnum 1))]⟩]
    [("d1", JVal.atom (.jnum 3))] ⟨"a.csv", ["x"], [["1"]]⟩ (by decide) (by decide)
  exact ⟨h1, h4, h6⟩

/-- C6 counterexample: merging a one-row CSV table with itself duplicates
its rows — `merge_csv [T, T]` is not `T`, so the `[X, X]` identity law
fails for the CSV merger. -/
theorem c6_merger_identity_counterexample :
    merge_csv [⟨"a.csv", ["x"], [["1"]]⟩, ⟨"a.csv", ["x"], [["1"]]⟩] ≠
      .single ⟨"a.csv", ["x"], [["1"]]⟩ := by
  decide

/-- C7: the VpopDesign merger (for inputs whose dimension keys are unique
within each design) returns the union of all dimensions — first occurrence
fixing key position — whenever every dimension identifier present in more
than one input maps to deep-equal payloads, and returns the conflict
signal (with no partial design) whenever any single colliding dimension
differs. -/
theorem c7_design_merge_all_or_nothing (designs : List (List (String × JVal)))
    (hwf : ∀ d ∈ designs, (d.map Prod.fst).Nodup) :
    ((∀ i j : Fin designs.length, i ≠ j → ∀ p ∈ designs.get i, ∀ q ∈ designs.get j,
        p.1 = q.1 → p.2 = q.2) →
      merge_vpop_designs designs = some (dedupByKey Prod.fst [] designs.flatten)) ∧
    ((∃ i j : Fin designs.length, i ≠ j ∧ ∃ p ∈ designs.get i, ∃ q ∈ designs.get j,
        p.1 = q.1 ∧ p.2 ≠ q.2) →
      merge_vpop_designs designs = none) := by
  constructor
  · intro hdeep
    have hco : KCoherent Prod.fst designs.flatten := by
      intro p hp q hq hk
      obtain ⟨v, hv, hpv⟩ := List.mem_flatten.mp hp
      obtain ⟨w, hw, hqw⟩ := List.mem_flatten.mp hq
      obtain ⟨i, hi⟩ := List.mem_iff_get.mp hv
      obtain ⟨j, hj⟩ := List.mem_iff_get.mp hw
      by_cases hij : i = j
      · have hvw : v = w := by rw [← hi, ← hj, hij]
        exact nodupkeys_coherent Prod.fst v (hwf v hv) p hpv q (hvw ▸ hqw) hk
      · have hs := hdeep i j hij p (hi.symm ▸ hpv) q (hj.symm ▸ hqw) hk
        cases p
        cases q
        simp_all
    have := mergeByKey_coherent_some Prod.fst designs.flatten [] (by simp)
      (by simpa using hco)
    rw [merge_vpop_designs, this]
  · intro hconf
    rw [merge_designs_none_iff]
    rw [incoherent_iff_pair Prod.fst designs hwf]
    obtain ⟨i, j, hij, p, hp, q, hq, hk, hne⟩ := hconf
    exact ⟨i, j, hij, p, hp, q, hq, hk, fun hh => hne (hh ▸ rfl)⟩

theorem c7_design_merge_all_or_nothing_witness :
    merge_vpop_designs [[("d1", JVal.atom (.jnum 3)), ("d2", JVal.atom (.jnum 4))],
      [("d3", JVal.atom (.jnum 5))]] =
      some (dedupByKey Prod.fst []
        ([[("d1", JVal.atom (.jnum 3)), ("d2", JVal.atom (.jnum 4))],
          [("d3", JVal.atom (.jnum 5))]] : List (List (String × JVal))).flatten) ∧
    merge_vpop_designs [[("d1", JVal.atom (.jnum 3))], [("d1", JVal.atom (.jnum 4))]] = none :=
  ⟨(c7_design_merge_all_or_nothing [[("d1", JVal.atom (.jnum 3)), ("d2", JVal.atom (.jnum 4))],
      [("d3", JVal.atom (.jnum 5))]] (by decide)).1
      (by decide),
   (c7_design_merge_all_or_nothing [[("d1", JVal.atom (.jnum 3))], [("d1", JVal.atom (.jnum 4))]] (by decide)).2
    ⟨⟨0, by decide⟩, ⟨1, by decide⟩, by decide, ("d1", JVal.atom (.jnum 3)), by decide,
      ("d1", JVal.atom (.jnum 4)), by decide, rfl, by decide⟩⟩

/-- C8: when every table shares the first table's column set, the CSV
merger returns one merged table equal to the concatenation of the input
tables' rows in input order; when the column sets are incompatible and
some table also lacks one of the mandatory columns, it returns the
conflict signal. -/
theorem c8_csv_concat_or_conflict (t : CsvTable) (rest : List CsvTable) :
    ((∀ u ∈ rest, u.columns = t.columns) →
      merge_csv (t :: rest) =
        .single ⟨t.name, t.columns, ((t :: rest).map CsvTable.rows).flatten⟩) ∧
    ((¬ ∀ u ∈ rest, u.columns = t.columns) →
      (∃ u ∈ t :: rest, ∃ c ∈ mandatory_columns, c ∉ u.columns) →
      merge_csv (t :: rest) = .conflict) := by
  constructor
  · intro hsame
    have hall : (t :: rest).all (fun u => decide (u.columns = t.columns)) = true := by
      rw [List.all_eq_true]
      intro u hu
      rcases List.mem_cons.mp hu with rfl | hu2
      · simp
      · simp [hsame u hu2]
    simp only [merge_csv, hall, if_true]
  · intro hdiff hmiss
    have hall : ¬((t :: rest).all (fun u => decide (u.columns = t.columns)) = true) := by
      rw [List.all_eq_true]
      intro hcontra
      apply hdiff
      intro u hu
      have h2 := hcontra u (by simp [hu])
      simpa using h2
    have hmand : ¬((t :: rest).all
        (fun u => mandatory_columns.all (fun c => u.columns.contains c)) = true) := by
      rw [List.all_eq_true]
      intro hcontra
      obtain ⟨u, hu, c, hc, hcu⟩ := hmiss
      have h2 := hcontra u hu
      rw [List.all_eq_true] at h2
      have h3 := h2 c hc
      simp only [List.elem_iff] at h3
      exact hcu h3
    simp only [merge_csv, if_neg hall, if_neg hmand]

theorem c8_csv_concat_or_conflict_witness :
    merge_csv [⟨"a.csv", ["x", "y"], [["1", "2"]]⟩, ⟨"b.csv", ["x", "y"], [["3", "4"]]⟩] =
      .single ⟨"a.csv", ["x", "y"],
        (([⟨"a.csv", ["x", "y"], [["1", "2"]]⟩, ⟨"b.csv", ["x", "y"], [["3", "4"]]⟩] :
          List CsvTable).map CsvTable.rows).flatten⟩ ∧
    merge_csv [⟨"a.csv", ["x"], [["1"]]⟩, ⟨"b.csv", ["y"], [["2"]]⟩] = .conflict :=
  ⟨(c8_csv_concat_or_conflict ⟨"a.csv", ["x", "y"], [["1", "2"]]⟩ [⟨"b.csv", ["x", "y"], [["3", "4"]]⟩]).1
      (by decide),
   (c8_csv_concat_or_conflict ⟨"a.csv", ["x"], [["1"]]⟩ [⟨"b.csv", ["y"], [["2"]]⟩]).2 (by decide)
      ⟨⟨"a.csv", ["x"], [["1"]]⟩, by decide, "armScope", by decide, by decide⟩⟩

/-- C9: whenever direct concatenation is not possible (and the mandatory
columns are present everywhere, so that the projection is defined), the
CSV merger projects every table onto exactly the fixed mandatory column
list, tags each trimmed row-set with the provenance identifier derived
from its source table name (the `dataTableID` column), and returns the
concatenation of the trimmed tables as a single merged table. -/
theorem c9_csv_trim_fallback (t : CsvTable) (rest : List CsvTable)
    (hdirect : ¬ ∀ u ∈ rest, u.columns = t.columns)
    (hmand : ∀ u ∈ t :: rest, ∀ c ∈ mandatory_columns, c ∈ u.columns) :
    merge_csv (t :: rest) = .single ⟨t.name, mandatory_columns ++ ["dataTableID"],
      ((t :: rest).map (fun u => (trimTable u).rows)).flatten⟩ := by
  have hall : ¬((t :: rest).all (fun u => decide (u.columns = t.columns)) = true) := by
    rw [List.all_eq_true]
    intro hcontra
    apply hdirect
    intro u hu
    have h2 := hcontra u (by simp [hu])
    simpa using h2
  have hmand2 : (t :: rest).all
      (fun u => mandatory_columns.all (fun c => u.columns.contains c)) = true := by
    rw [List.all_eq_true]
    intro u hu
    rw [List.all_eq_true]
    intro c hc
    simp only [List.elem_iff]
    exact hmand u hu c hc
  simp only [merge_csv, if_neg hall, if_pos hmand2]

theorem c9_csv_trim_fallback_witness :
    merge_csv [⟨"a.csv", ["armScope", "obsId", "time", "value", "narrowRangeLowBound",
        "narrowRangeHighBound", "wideRangeLowBound", "wideRangeHighBound", "extra"],
        [["arm1", "o1", "0", "1.5", "a", "b", "c", "d", "junk"]]⟩,
      ⟨"b.csv", ["armScope", "obsId", "time", "value", "narrowRangeLowBound",
        "narrowRangeHighBound", "wideRangeLowBound", "wideRangeHighBound"],
        [["arm2", "o2", "1", "2.5", "e", "f", "g", "h"]]⟩] =
      .single ⟨"a.csv", mandatory_columns ++ ["dataTableID"],
        [["arm1", "o1", "0", "1.5", "a", "b", "c", "d", "a"],
         ["arm2", "o2", "1", "2.5", "e", "f", "g", "h", "b"]]⟩ := by
  have h9 := c9_csv_trim_fallback ⟨"a.csv", ["armScope", "obsId", "time", "value", "narrowRangeLowBound",
        "narrowRangeHighBound", "wideRangeLowBound", "wideRangeHighBound", "extra"],
        [["arm1", "o1", "0", "1.5", "a", "b", "c", "d", "junk"]]⟩
      [⟨"b.csv", ["armScope", "obsId", "time", "value", "narrowRangeLowBound",
        "narrowRangeHighBound", "wideRangeLowBound", "wideRangeHighBound"],
        [["arm2", "o2", "1", "2.5", "e", "f", "g", "h"]]⟩]
      (by
        intro hcontra
        have h2 := hcontra (⟨"b.csv", ["armScope", "obsId", "time", "value",
          "narrowRangeLowBound", "narrowRangeHighBound", "wideRangeLowBound",
          "wideRangeHighBound"], [["arm2", "o2", "1", "2.5", "e", "f", "g", "h"]]⟩ : CsvTable)
          (by decide)
        revert h2
        decide)
      (by decide)
  rw [h9]
  decide
